import Mathlib

/-!
Shallow embedding of the avr-tester harness core, translated from:
  src/avr-tester/src/simulator/uart.rs   (Uart, UartT: channel buffer & flow control)
  src/avr-tester/src/uart.rs             (Uart adapter: read / try_read_byte)
  src/avr-tester/src/pins/digital_pin.rs (DigitalPin, DigitalPinAsync)

Bytes are modelled as `Nat` (values delivered by the engine are `u8`, the
queues store `u8`); `VecDeque<u8>` is modelled as `List Nat` with
`push_back = append one element at the back` and `pop_front = take the head`.
The session clock frequency is fixed, so a `CpuDuration` is identified with
its cycle count (`Nat`).
-/

namespace AvrTester

/-- Embedding of `UartT::MAX_BYTES = 16 * 1024` from simulator/uart.rs. -/
def MAX_BYTES : Nat := 16 * 1024

/-- The channel buffer `UartT` from simulator/uart.rs: a receive queue, a
transmit queue and the XON/XOFF flow-control flag (`xon` defaults to true). -/
structure UartT where
  rx : List Nat
  tx : List Nat
  xon : Bool
  deriving Repr, DecidableEq

namespace UartT

/-- Embedding of `impl Default for UartT`: empty queues, `xon = true`. -/
def default0 : UartT := { rx := [], tx := [], xon := true }

/-- Embedding of `UartT::rx_push`: appends to `rx` only when `rx.len() < MAX_BYTES`;
otherwise the byte is dropped and the buffer is left unchanged. -/
def rx_push (u : UartT) (value : Nat) : UartT :=
  if u.rx.length < MAX_BYTES then { u with rx := u.rx ++ [value] } else u

/-- Embedding of `UartT::rx_pop`: `VecDeque::pop_front` on `rx`. -/
def rx_pop (u : UartT) : Option Nat × UartT :=
  match u.rx with
  | [] => (none, u)
  | b :: rest => (some b, { u with rx := rest })

/-- Embedding of `UartT::tx_push`: `VecDeque::push_back` on `tx` (unbounded). -/
def tx_push (u : UartT) (value : Nat) : UartT :=
  { u with tx := u.tx ++ [value] }

/-- Embedding of `UartT::tx_pop`: `VecDeque::pop_front` on `tx`. -/
def tx_pop (u : UartT) : Option Nat × UartT :=
  match u.tx with
  | [] => (none, u)
  | b :: rest => (some b, { u with tx := rest })

/-- Embedding of `UartT::is_xon`. -/
def is_xon (u : UartT) : Bool := u.xon

/-- Embedding of `UartT::set_xon`. -/
def set_xon (u : UartT) : UartT := { u with xon := true }

/-- Embedding of `UartT::set_xoff`. -/
def set_xoff (u : UartT) : UartT := { u with xon := false }

end UartT

/-- An engine-originated notification hitting the buffer: the three IRQ
callbacks registered in `Uart::try_init` (`on_output`, `on_xon`, `on_xoff`). -/
inductive UartEvent where
  | output (b : Nat)
  | xonEv
  | xoffEv
  deriving Repr, DecidableEq

/-- Dispatch of one engine notification, as the callbacks do:
`on_output(value)` calls `rx_push(value as u8)`, `on_xon` calls `set_xon`,
`on_xoff` calls `set_xoff`. -/
def applyEvent (u : UartT) (e : UartEvent) : UartT :=
  match e with
  | .output b => u.rx_push (b % 256)
  | .xonEv => u.set_xon
  | .xoffEv => u.set_xoff

theorem applyEvent_tx (u : UartT) (e : UartEvent) : (applyEvent u e).tx = u.tx := by
  cases e <;> simp [applyEvent, UartT.rx_push, UartT.set_xon, UartT.set_xoff]
  split <;> rfl

theorem foldl_applyEvent_tx (es : List UartEvent) (u : UartT) :
    (es.foldl applyEvent u).tx = u.tx := by
  induction es generalizing u with
  | nil => rfl
  | cons e es ih => simp [List.foldl, ih, applyEvent_tx]

theorem tx_pop_some_tx {u u' : UartT} {b : Nat} (h : u.tx_pop = (some b, u')) :
    u.tx = b :: u'.tx ∧ u'.rx = u.rx ∧ u'.xon = u.xon := by
  unfold UartT.tx_pop at h
  cases hx : u.tx with
  | nil => rw [hx] at h; simp at h
  | cons c rest =>
    rw [hx] at h
    simp at h
    obtain ⟨hb, hu⟩ := h
    subst hb hu
    simp [hx]

theorem rx_pop_some {u u' : UartT} {b : Nat} (h : u.rx_pop = (some b, u')) :
    u.rx = b :: u'.rx ∧ u'.tx = u.tx ∧ u'.xon = u.xon := by
  unfold UartT.rx_pop at h
  cases hx : u.rx with
  | nil => rw [hx] at h; simp at h
  | cons c rest =>
    rw [hx] at h
    simp at h
    obtain ⟨hb, hu⟩ := h
    subst hb hu
    simp [hx]

/-- Embedding of `Uart::flush` from simulator/uart.rs, with the external engine abstracted:
`eng k b` is the list of notifications the engine fires synchronously while
byte `b` is raised on the input IRQ at the `k`-th injection of this flush
(`avr_raise_irq` may invoke the registered callbacks re-entrantly).
`irqNull` models `avr_io_getirq` returning a null pointer, in which case the
loop panics (result `none`). The loop: while `is_xon()`, `tx_pop()` a byte
(break when the queue is empty) and raise it on the input IRQ. Returns the
trace of (state at injection time, byte) pairs and the final state. -/
def flush (irqNull : Bool) (eng : Nat → Nat → List UartEvent) (k : Nat)
    (u : UartT) : Option (List (UartT × Nat) × UartT) :=
  if u.is_xon then
    match h : u.tx_pop with
    | (none, _) => some ([], u)
    | (some b, u1) =>
      if irqNull then none
      else
        let u2 := (eng k b).foldl applyEvent u1
        match flush irqNull eng (k + 1) u2 with
        | none => none
        | some (tr, u3) => some ((u1, b) :: tr, u3)
  else
    some ([], u)
  termination_by u.tx.length
  decreasing_by
    simp only [foldl_applyEvent_tx]
    have h2 := congrArg List.length (tx_pop_some_tx h).1
    simp at h2
    omega

/-- Embedding of `Uart::recv` from simulator/uart.rs: `rx_pop`. -/
def Uart.recv (u : UartT) : Option Nat × UartT := u.rx_pop

/-- Embedding of `Uart::send` from simulator/uart.rs: `tx_push`. -/
def Uart.send (u : UartT) (byte : Nat) : UartT := u.tx_push byte

/-- Embedding of `Uart::on_output` callback: `rx_push(value as u8)`. -/
def Uart.on_output (u : UartT) (value : Nat) : UartT := u.rx_push (value % 256)

/-- Embedding of `AvrSimulator` pin table consulted by `is_pin_high` / mutated by
`set_pin_high`: level of each (port, pin). -/
def PinTable : Type := Char → Nat → Bool

/-- Embedding of `set_pin_high(port, pin, high)` on the engine pin table. -/
def set_pin_high (t : PinTable) (port : Char) (pin : Nat) (high : Bool) : PinTable :=
  fun p n => if p = port ∧ n = pin then high else t p n

/-- Embedding of `is_pin_high(port, pin)` on the engine pin table. -/
def is_pin_high (t : PinTable) (port : Char) (pin : Nat) : Bool :=
  t port pin

/-- Embedding of `DigitalPin` identity: a port letter and a pin number. -/
structure DigitalPin where
  port : Char
  pin : Nat

namespace DigitalPin

/-- Embedding of `DigitalPin::set`: `set_pin_high(port, pin, high)`. -/
def set (p : DigitalPin) (t : PinTable) (high : Bool) : PinTable :=
  set_pin_high t p.port p.pin high

/-- Embedding of `DigitalPin::set_low`. -/
def set_low (p : DigitalPin) (t : PinTable) : PinTable := p.set t false

/-- Embedding of `DigitalPin::set_high`. -/
def set_high (p : DigitalPin) (t : PinTable) : PinTable := p.set t true

/-- Embedding of `DigitalPin::is_high`: `is_pin_high(port, pin)`. -/
def is_high (p : DigitalPin) (t : PinTable) : Bool := is_pin_high t p.port p.pin

/-- Embedding of `DigitalPin::is_low`: `!is_high()`. -/
def is_low (p : DigitalPin) (t : PinTable) : Bool := !p.is_high t

/-- Embedding of `DigitalPin::toggle`: read-then-invert-write. -/
def toggle (p : DigitalPin) (t : PinTable) : PinTable :=
  if p.is_low t then p.set_high t else p.set_low t

/-- Embedding of `DigitalPin::name`: `format!("P{}{}", port, pin)`. -/
def name (p : DigitalPin) : String :=
  "P" ++ toString p.port ++ toString p.pin

/-- Embedding of `DigitalPin::assert_low`: `assert!(is_low, "{} is not low", name)`; a
failed assertion panics with that message (`Except.error`). -/
def assert_low (p : DigitalPin) (t : PinTable) : Except String Unit :=
  if p.is_low t then .ok () else .error (p.name ++ " is not low")

/-- Embedding of `DigitalPin::assert_high`: `assert!(is_high, "{} is not high", name)`. -/
def assert_high (p : DigitalPin) (t : PinTable) : Except String Unit :=
  if p.is_high t then .ok () else .error (p.name ++ " is not high")

/-- Embedding of `DigitalPin::assert(high)`. -/
def assert0 (p : DigitalPin) (t : PinTable) (high : Bool) : Except String Unit :=
  if high then p.assert_high t else p.assert_low t

end DigitalPin

/-- The stepping loop shared by `pulse_in` / `wait_while_low` /
`wait_while_high` of digital_pin.rs:
`let mut tt = CpuDuration::zero(avr); while cond { tt += avr.run(); } tt`.
The engine is abstracted as traces over the step counter `i`: `cond i` is the
loop predicate over hardware state after `i` completed steps, and `dur i` is
the `CpuDuration` (cycle count, frequency fixed) reported by step `i`.
`fuel` bounds how many steps are modelled; `none` means the loop is still
running after `fuel` steps. On `some (tt, j)` the loop returned the
accumulated duration `tt` with step counter `j`. -/
def waitLoop (cond : Nat → Bool) (dur : Nat → Nat) :
    Nat → Nat → Option (Nat × Nat)
  | 0, i => if cond i then none else some (0, i)
  | fuel + 1, i =>
    if cond i then
      match waitLoop cond dur fuel (i + 1) with
      | none => none
      | some (d, j) => some (dur i + d, j)
    else
      some (0, i)

/-- Embedding of `DigitalPin::pulse_in`: captures `state = is_high()`, then loops while
`is_high() == state`. `lvl i` is the pin level after `i` completed steps. -/
def DigitalPin.pulse_in (lvl : Nat → Bool) (dur : Nat → Nat) (fuel i : Nat) :
    Option (Nat × Nat) :=
  waitLoop (fun n => lvl n == lvl i) dur fuel i

/-- Embedding of `DigitalPin::wait_while_low`: loops while `is_low()`. -/
def DigitalPin.wait_while_low (lvl : Nat → Bool) (dur : Nat → Nat)
    (fuel i : Nat) : Option (Nat × Nat) :=
  waitLoop (fun n => !lvl n) dur fuel i

/-- Embedding of `DigitalPin::wait_while_high`: loops while `is_high()`. -/
def DigitalPin.wait_while_high (lvl : Nat → Bool) (dur : Nat → Nat)
    (fuel i : Nat) : Option (Nat × Nat) :=
  waitLoop (fun n => lvl n) dur fuel i

/-- Embedding of `DigitalPinAsync` identity (same fields as `DigitalPin`). -/
structure DigitalPinAsync where
  port : Char
  pin : Nat

namespace DigitalPinAsync

/-- Embedding of `DigitalPinAsync::set`: `ComponentRuntime::with(|rt| rt.sim().set_pin_high(..))`;
the runtime resolves to the session simulator, i.e. the same pin table. -/
def set (p : DigitalPinAsync) (t : PinTable) (high : Bool) : PinTable :=
  set_pin_high t p.port p.pin high

/-- Embedding of `DigitalPinAsync::set_low`. -/
def set_low (p : DigitalPinAsync) (t : PinTable) : PinTable := p.set t false

/-- Embedding of `DigitalPinAsync::set_high`. -/
def set_high (p : DigitalPinAsync) (t : PinTable) : PinTable := p.set t true

/-- Embedding of `DigitalPinAsync::is_high` via the component runtime. -/
def is_high (p : DigitalPinAsync) (t : PinTable) : Bool :=
  is_pin_high t p.port p.pin

/-- Embedding of `DigitalPinAsync::is_low`: `!is_high()`. -/
def is_low (p : DigitalPinAsync) (t : PinTable) : Bool := !p.is_high t

/-- Embedding of `DigitalPinAsync::toggle`. -/
def toggle (p : DigitalPinAsync) (t : PinTable) : PinTable :=
  if p.is_low t then p.set_high t else p.set_low t

/-- Embedding of `DigitalPinAsync::name`. -/
def name (p : DigitalPinAsync) : String :=
  "P" ++ toString p.port ++ toString p.pin

/-- Embedding of `DigitalPinAsync::assert_low`. -/
def assert_low (p : DigitalPinAsync) (t : PinTable) : Except String Unit :=
  if p.is_low t then .ok () else .error (p.name ++ " is not low")

/-- Embedding of `DigitalPinAsync::assert_high`. -/
def assert_high (p : DigitalPinAsync) (t : PinTable) : Except String Unit :=
  if p.is_high t then .ok () else .error (p.name ++ " is not high")

end DigitalPinAsync

/-- The async stepping loop of DigitalPinAsync:
`let mut tt = CpuDuration::new(rt.clock_frequency(), 0);
 while cond { tt += avr_rt().run().await; } tt` — each step request is a
suspension point resumed with the duration of that step; the resulting
duration accounting over the step counter. -/
def asyncWaitLoop (cond : Nat → Bool) (dur : Nat → Nat) :
    Nat → Nat → Option (Nat × Nat)
  | 0, i => if cond i then none else some (0, i)
  | fuel + 1, i =>
    if cond i then
      Option.map (fun p => (dur i + p.1, p.2)) (asyncWaitLoop cond dur fuel (i + 1))
    else
      some (0, i)

/-- Embedding of `DigitalPinAsync::pulse_in`. -/
def DigitalPinAsync.pulse_in (lvl : Nat → Bool) (dur : Nat → Nat)
    (fuel i : Nat) : Option (Nat × Nat) :=
  asyncWaitLoop (fun n => lvl n == lvl i) dur fuel i

/-- Embedding of `DigitalPinAsync::wait_while_low`. -/
def DigitalPinAsync.wait_while_low (lvl : Nat → Bool) (dur : Nat → Nat)
    (fuel i : Nat) : Option (Nat × Nat) :=
  asyncWaitLoop (fun n => !lvl n) dur fuel i

/-- Embedding of `DigitalPinAsync::wait_while_high`. -/
def DigitalPinAsync.wait_while_high (lvl : Nat → Bool) (dur : Nat → Nat)
    (fuel i : Nat) : Option (Nat × Nat) :=
  asyncWaitLoop (fun n => lvl n) dur fuel i

/-- Embedding of `Uart::try_read_byte` from src/uart.rs: `sim.read_uart(id)`, which is
the simulator `Uart::recv`, i.e. `rx_pop`; returns the byte (if any) and the
buffer afterwards. -/
def Uart.try_read_byte (u : UartT) : Option Nat × UartT := u.rx_pop

/-- Embedding of `Reader::read_byte` for `Uart` from src/uart.rs:
`try_read_byte().expect(..)` — panics (`Except.error`) when the buffer holds
no byte. -/
def Uart.read_byte (u : UartT) : Except String (Nat × UartT) :=
  match u.rx_pop with
  | (none, _) =>
    .error "UART buffer is empty - got no more bytes to read"
  | (some b, u2) => .ok (b, u2)

/-- simavr UART IRQ indices consumed through simavr-ffi. -/
def UART_IRQ_OUTPUT : Nat := 1
/-- simavr `UART_IRQ_OUT_XON`. -/
def UART_IRQ_OUT_XON : Nat := 2
/-- simavr `UART_IRQ_OUT_XOFF`. -/
def UART_IRQ_OUT_XOFF : Nat := 3

/-- The engine surface `Uart::try_init` consumes, abstracted:
`uartGetFlags id` is the `IoCtl::UartGetFlags` query (`none` models a
nonzero ioctl result: the UART does not exist on this AVR; `some flags` the
retrieved `u32` flags); `ioGetIrq id irq` is `avr_io_getirq` (`false`
models a null pointer); `stdioBit` is the bit position of the simavr
`AVR_UART_FLAG_STDIO` pass-through-to-stdout flag. -/
structure AvrEngine where
  uartGetFlags : Nat → Option Nat
  ioGetIrq : Nat → Nat → Bool
  stdioBit : Nat

/-- Outcome of `Uart::try_init`: `unsupported` is the `None` return,
`aborted` the panic on a null IRQ pointer, and `ok flagsWritten hooks`
success, recording the flags written back via `IoCtl::UartSetFlags` and the
IRQ indices hooked via `avr_irq_register_notify`, in registration order. -/
inductive InitResult where
  | unsupported
  | aborted
  | ok (flagsWritten : Nat) (hooks : List Nat)
  deriving Repr, DecidableEq

/-- Embedding of `Uart::try_init` from simulator/uart.rs: query `UartGetFlags` (returning
`None` when the ioctl fails), clear `AVR_UART_FLAG_STDIO` and write the
flags back, then fetch the output / XON / XOFF IRQs, panicking if any
pointer is null, and register the three notify callbacks. (In the source
the flags are written back before the IRQ lookups; the model records the
written flags only on the successful path, which the claims compare.) -/
def Uart.try_init (avr : AvrEngine) (id : Nat) : InitResult :=
  match avr.uartGetFlags id with
  | none => .unsupported
  | some flags =>
    let flags2 := flags &&& ((2 ^ 32 - 1) ^^^ 2 ^ avr.stdioBit)
    if avr.ioGetIrq id UART_IRQ_OUTPUT
        && avr.ioGetIrq id UART_IRQ_OUT_XON
        && avr.ioGetIrq id UART_IRQ_OUT_XOFF then
      .ok flags2 [UART_IRQ_OUTPUT, UART_IRQ_OUT_XON, UART_IRQ_OUT_XOFF]
    else
      .aborted

/-- The engine behaviour driving the FIFO round-trip scenario: the firmware
echoes every injected byte straight back through the data-output
notification (`on_output`). -/
def echoEng : Nat → Nat → List UartEvent := fun _ b => [.output b]

/-- Draining reads: repeated `Uart::recv` (`rx_pop`) until the buffer
reports no data, collecting the bytes in retrieval order. -/
def recvAll (u : UartT) : List Nat :=
  match h : Uart.recv u with
  | (none, _) => []
  | (some b, u') => b :: recvAll u'
  termination_by u.rx.length
  decreasing_by
    have h2 := congrArg List.length (rx_pop_some h).1
    simp at h2
    omega

/-! ### Helper lemmas -/

theorem tx_pop_none {u u' : UartT} (h : u.tx_pop = (none, u')) :
    u.tx = [] ∧ u' = u := by
  unfold UartT.tx_pop at h
  cases hx : u.tx with
  | nil => rw [hx] at h; simp at h; exact ⟨rfl, h.symm⟩
  | cons c rest => rw [hx] at h; simp at h

/-- Summary of one `Uart::flush` call (no null IRQ): every injection happens
in a state with `xon` set, the injected bytes followed by the remaining `tx`
reconstruct the original `tx`, and on exit the `tx` queue is empty or `xon`
is cleared. -/
theorem flush_spec (eng : Nat → Nat → List UartEvent) (k0 : Nat) (u0 : UartT) :
    ∀ tr u2, flush false eng k0 u0 = some (tr, u2) →
      (∀ e ∈ tr, e.1.is_xon = true) ∧
      tr.map Prod.snd ++ u2.tx = u0.tx ∧
      (u2.tx = [] ∨ u2.is_xon = false) := by
  refine flush.induct false eng
    (fun k u => ∀ tr u2, flush false eng k u = some (tr, u2) →
      (∀ e ∈ tr, e.1.is_xon = true) ∧
      tr.map Prod.snd ++ u2.tx = u.tx ∧
      (u2.tx = [] ∨ u2.is_xon = false)) ?_ ?_ ?_ ?_ ?_ k0 u0
  · -- xon true, tx_pop gives none: loop exits with the queue empty
    intro k u hxon u' hpop tr u2 h
    rw [flush] at h
    simp only [hxon, if_true] at h
    split at h
    · obtain ⟨htx, _⟩ := tx_pop_none hpop
      simp at h
      obtain ⟨h1, h2⟩ := h
      subst h1 h2
      exact ⟨by simp, by simp [htx], Or.inl htx⟩
    · rename_i b1 u1' heq
      rw [hpop] at heq
      simp at heq
  · intro k u hxon b u1 hpop hirq
    exact absurd hirq (by simp)
  · -- recursive flush diverged (returned none): hypothesis contradictory
    intro k u hxon b u1 hpop hirq u2' hrec ih tr u2 h
    rw [flush] at h
    simp only [hxon, if_true] at h
    split at h
    · rename_i u1' heq
      rw [hpop] at heq
      simp at heq
    · rename_i b1 u1' heq
      rw [hpop] at heq
      simp at heq
      obtain ⟨hb, hu⟩ := heq
      subst hb hu
      rw [hrec] at h
      simp at h
  · -- main case: one byte injected, then the rest by induction
    intro k u hxon b u1 hpop hirq u2' tr' u3 hrec ih tr u2 h
    rw [flush] at h
    simp only [hxon, if_true] at h
    split at h
    · rename_i u1' heq
      rw [hpop] at heq
      simp at heq
    · rename_i b1 u1' heq
      rw [hpop] at heq
      simp at heq
      obtain ⟨hb, hu⟩ := heq
      subst hb hu
      rw [hrec] at h
      simp at h
      obtain ⟨h1, h2⟩ := h
      subst h1 h2
      obtain ⟨htx, hrx, hxon1⟩ := tx_pop_some_tx hpop
      obtain ⟨ih1, ih2, ih3⟩ := ih tr' u3 hrec
      refine ⟨?_, ?_, ih3⟩
      · intro e he
        rcases List.mem_cons.1 he with he | he
        · subst he
          simp only [UartT.is_xon, hxon1]
          exact hxon
        · exact ih1 e he
      · simp only [List.map_cons, List.cons_append]
        rw [ih2]
        show b :: (List.foldl applyEvent u1 (eng k b)).tx = u.tx
        rw [foldl_applyEvent_tx, htx]
  · -- xon false: loop exits immediately
    intro k u hxon tr u2 h
    rw [flush] at h
    simp [hxon] at h
    obtain ⟨h1, h2⟩ := h
    subst h1 h2
    refine ⟨by simp, by simp, Or.inr ?_⟩
    simpa [UartT.is_xon] using hxon

theorem rx_push_xon (u : UartT) (v : Nat) : (u.rx_push v).xon = u.xon := by
  unfold UartT.rx_push
  split <;> rfl

theorem rx_push_len_le {u : UartT} (h : u.rx.length ≤ MAX_BYTES) (v : Nat) :
    ((u.rx_push v).rx.length ≤ MAX_BYTES) := by
  unfold UartT.rx_push
  split
  · rename_i hlt
    simpa using hlt
  · exact h

/-! ### Claim theorems -/

/-- C1: the receive queue `rx` never holds more than 16384 bytes under any
sequence of engine deliveries (`rx_push`): below capacity a delivery appends
the byte, at capacity a delivery leaves the buffer entirely unchanged, and
the length bound is preserved by every delivery sequence. -/
theorem uartT_rx_push_bounded (u : UartT) (v : Nat) (bs : List Nat) :
    (u.rx.length < MAX_BYTES → (u.rx_push v).rx = u.rx ++ [v]) ∧
    (MAX_BYTES ≤ u.rx.length → u.rx_push v = u) ∧
    (u.rx.length ≤ MAX_BYTES → (bs.foldl UartT.rx_push u).rx.length ≤ MAX_BYTES) := by
  refine ⟨?_, ?_, ?_⟩
  · intro h
    simp [UartT.rx_push, h]
  · intro h
    simp [UartT.rx_push, Nat.not_lt.2 h]
  · intro h
    induction bs generalizing u with
    | nil => exact h
    | cons b bs ih => exact ih _ (rx_push_len_le h b)

theorem uartT_rx_push_bounded_witness :
    (UartT.default0.rx_push 7).rx = [] ++ [7] ∧
    UartT.rx_push ⟨List.replicate MAX_BYTES 0, [], true⟩ 9 =
      ⟨List.replicate MAX_BYTES 0, [], true⟩ ∧
    (([1, 2, 3] : List Nat).foldl UartT.rx_push UartT.default0).rx.length ≤ MAX_BYTES := by
  refine ⟨(uartT_rx_push_bounded UartT.default0 7 []).1 (by simp [UartT.default0, MAX_BYTES]),
    (uartT_rx_push_bounded ⟨List.replicate MAX_BYTES 0, [], true⟩ 9 []).2.1 (by simp),
    (uartT_rx_push_bounded UartT.default0 7 [1, 2, 3]).2.2 (by simp [UartT.default0, MAX_BYTES])⟩

/-- C2: the flush loop never hands a byte to the engine input IRQ while
`xon` is false: every injection in the trace happens in a state with
`is_xon = true`; a flush begun with `xon` cleared performs no injection and
leaves the buffer untouched; and the only notification that sets `xon`
back to true is the XON event, so after an XOFF no injection occurs until a
subsequent XON. -/
theorem uart_flush_xoff_no_injection (eng : Nat → Nat → List UartEvent)
    (k : Nat) (u : UartT) (tr : List (UartT × Nat)) (u2 : UartT)
    (h : flush false eng k u = some (tr, u2)) :
    (∀ e ∈ tr, e.1.is_xon = true) ∧
    (u.is_xon = false → tr = [] ∧ u2 = u) ∧
    (∀ (v : UartT) (ev : UartEvent),
      (applyEvent v ev).is_xon = true → v.is_xon = true ∨ ev = .xonEv) := by
  refine ⟨(flush_spec eng k u tr u2 h).1, ?_, ?_⟩
  · intro hxoff
    rw [flush] at h
    simp only [UartT.is_xon] at hxoff
    simp [UartT.is_xon, hxoff] at h
    exact ⟨h.1, h.2.symm⟩
  · intro v ev hev
    cases ev with
    | output b =>
      left
      simpa [applyEvent, UartT.is_xon, rx_push_xon] using hev
    | xonEv => right; rfl
    | xoffEv => simp [applyEvent, UartT.set_xoff, UartT.is_xon] at hev

theorem uart_flush_xoff_no_injection_witness :
    ((⟨[], [2], true⟩ : UartT), 1).1.is_xon = true := by
  have h : flush false (fun k _ => if k = 0 then [UartEvent.xoffEv] else []) 0
      ⟨[], [1, 2], true⟩ =
      some ([(⟨[], [2], true⟩, 1)], ⟨[], [2], false⟩) := by
    rw [flush]
    simp [UartT.is_xon, UartT.tx_pop, applyEvent, UartT.set_xoff]
    rw [flush]
    simp [UartT.is_xon]
  exact (uart_flush_xoff_no_injection _ 0 _ _ _ h).1 _ (by simp)

/-- C10: postcondition of `Uart::flush`: on return the `tx` queue is empty
or `xon` is false, and the injected bytes followed by the remaining queue
reconstruct the original queue — each injected byte was popped from the
front exactly once, in order, with none duplicated or skipped. -/
theorem uart_flush_postcondition (eng : Nat → Nat → List UartEvent)
    (k : Nat) (u : UartT) (tr : List (UartT × Nat)) (u2 : UartT)
    (h : flush false eng k u = some (tr, u2)) :
    tr.map Prod.snd ++ u2.tx = u.tx ∧ (u2.tx = [] ∨ u2.is_xon = false) :=
  ⟨(flush_spec eng k u tr u2 h).2.1, (flush_spec eng k u tr u2 h).2.2⟩

theorem uart_flush_postcondition_witness :
    List.map Prod.snd
        [((⟨[], [2], true⟩ : UartT), 1), ((⟨[], [], true⟩ : UartT), 2)] ++
      (⟨[], [], true⟩ : UartT).tx = (⟨[], [1, 2], true⟩ : UartT).tx := by
  have h : flush false (fun _ _ => []) 0 ⟨[], [1, 2], true⟩ =
      some ([(⟨[], [2], true⟩, 1), (⟨[], [], true⟩, 2)], ⟨[], [], true⟩) := by
    rw [flush]
    simp [UartT.is_xon, UartT.tx_pop, applyEvent]
    rw [flush]
    simp [UartT.is_xon, UartT.tx_pop, applyEvent]
    rw [flush]
    simp [UartT.is_xon, UartT.tx_pop]
  exact (uart_flush_postcondition _ 0 _ _ _ h).1

/-- A wait loop whose condition is already false at entry returns at once
with the zero duration and an unchanged step counter. -/
theorem waitLoop_exit (cond : Nat → Bool) (dur : Nat → Nat) (fuel i : Nat)
    (h : cond i = false) : waitLoop cond dur fuel i = some (0, i) := by
  cases fuel with
  | zero => rw [waitLoop]; simp [h]
  | succ fuel => rw [waitLoop]; simp [h]

/-- A completed wait loop ends at the first-examined index with the
condition false, and its duration is the sum of the step durations of the
executed steps `i, .., j-1`. -/
theorem waitLoop_sum (cond : Nat → Bool) (dur : Nat → Nat) :
    ∀ fuel i d j, waitLoop cond dur fuel i = some (d, j) →
      cond j = false ∧ i ≤ j ∧ d = ∑ n ∈ Finset.Ico i j, dur n := by
  intro fuel
  induction fuel with
  | zero =>
    intro i d j h
    rw [waitLoop] at h
    split at h
    · simp at h
    · simp at h
      obtain ⟨rfl, rfl⟩ := h
      rename_i hc
      exact ⟨by simpa using hc, le_refl _, by simp⟩
  | succ fuel ih =>
    intro i d j h
    rw [waitLoop] at h
    split at h
    · rename_i hc
      cases hrec : waitLoop cond dur fuel (i + 1) with
      | none => rw [hrec] at h; simp at h
      | some p =>
        obtain ⟨d', j'⟩ := p
        rw [hrec] at h
        simp at h
        obtain ⟨rfl, rfl⟩ := h
        obtain ⟨ih1, ih2, ih3⟩ := ih (i + 1) d' j' hrec
        refine ⟨ih1, by omega, ?_⟩
        rw [ih3, Finset.sum_eq_sum_Ico_succ_bot (by omega : i < j')]
    · simp at h
      obtain ⟨rfl, rfl⟩ := h
      rename_i hc
      exact ⟨by simpa using hc, le_refl _, by simp⟩

/-- When every step reports a positive cycle count, a completed wait loop
returns the zero duration exactly when the condition was false at entry. -/
theorem waitLoop_zero_iff (cond : Nat → Bool) (dur : Nat → Nat)
    (hpos : ∀ n, 0 < dur n) (fuel i d j : Nat)
    (h : waitLoop cond dur fuel i = some (d, j)) :
    d = 0 ↔ cond i = false := by
  obtain ⟨h1, h2, h3⟩ := waitLoop_sum cond dur fuel i d j h
  constructor
  · intro hd
    subst hd
    by_contra hc
    have hij : i < j := by
      rcases Nat.lt_or_ge i j with h' | h'
      · exact h'
      · have : i = j := by omega
        subst this
        exact absurd h1 hc
    have : 0 < ∑ n ∈ Finset.Ico i j, dur n :=
      Finset.sum_pos (fun n _ => hpos n) (by simpa [Finset.nonempty_Ico] using hij)
    omega
  · intro hc
    have := waitLoop_exit cond dur fuel i hc
    rw [this] at h
    simp at h
    exact h.1.symm

/-- The async wait loop computes the same duration accounting as the
synchronous one: suspension only changes how the step results arrive. -/
theorem asyncWaitLoop_eq_waitLoop (cond : Nat → Bool) (dur : Nat → Nat) :
    ∀ fuel i, asyncWaitLoop cond dur fuel i = waitLoop cond dur fuel i := by
  intro fuel
  induction fuel with
  | zero =>
    intro i
    rw [asyncWaitLoop, waitLoop]
  | succ fuel ih =>
    intro i
    rw [asyncWaitLoop, waitLoop]
    rw [ih]
    cases waitLoop cond dur fuel (i + 1) with
    | none => simp
    | some p => simp

/-- C3: `wait_while_low` returns the zero duration iff the pin is already
high at call time, and then performs no step (the counter is unchanged);
symmetrically for `wait_while_high`. Step durations are positive (each
engine step is a real simulated-time advance). -/
theorem digitalPin_wait_while_zero_iff (lvl : Nat → Bool) (dur : Nat → Nat)
    (fuel i d j d' j' : Nat) (hpos : ∀ n, 0 < dur n) :
    (lvl i = true → DigitalPin.wait_while_low lvl dur fuel i = some (0, i)) ∧
    (DigitalPin.wait_while_low lvl dur fuel i = some (d, j) →
      (d = 0 ↔ lvl i = true)) ∧
    (lvl i = false → DigitalPin.wait_while_high lvl dur fuel i = some (0, i)) ∧
    (DigitalPin.wait_while_high lvl dur fuel i = some (d', j') →
      (d' = 0 ↔ lvl i = false)) := by
  refine ⟨?_, ?_, ?_, ?_⟩
  · intro h
    exact waitLoop_exit _ dur fuel i (by simp [h])
  · intro h
    have := waitLoop_zero_iff _ dur hpos fuel i d j h
    simpa using this
  · intro h
    exact waitLoop_exit _ dur fuel i (by simp [h])
  · intro h
    exact waitLoop_zero_iff _ dur hpos fuel i d' j' h

theorem digitalPin_wait_while_zero_iff_witness :
    DigitalPin.wait_while_low (fun _ => true) (fun _ => 4) 3 0 = some (0, 0) := by
  exact (digitalPin_wait_while_zero_iff (fun _ => true) (fun _ => 4) 3 0 0 0 0 0
    (fun _ => Nat.succ_pos 3)).1 rfl

/-- C4: `pulse_in` returns only once the level has changed from the level
captured at call time, after at least one executed step, and the returned
duration is the accumulated sum of the durations of the executed steps. -/
theorem digitalPin_pulse_in_change (lvl : Nat → Bool) (dur : Nat → Nat)
    (fuel i d j : Nat)
    (h : DigitalPin.pulse_in lvl dur fuel i = some (d, j)) :
    lvl j ≠ lvl i ∧ i < j ∧ d = ∑ n ∈ Finset.Ico i j, dur n := by
  obtain ⟨h1, h2, h3⟩ := waitLoop_sum _ dur fuel i d j h
  have hchange : lvl j ≠ lvl i := by simpa using h1
  refine ⟨hchange, ?_, h3⟩
  rcases Nat.lt_or_ge i j with h' | h'
  · exact h'
  · have : i = j := by omega
    subst this
    exact absurd rfl hchange

theorem digitalPin_pulse_in_change_witness :
    (fun n => n == 0) 1 ≠ (fun n => n == 0) 0 ∧ 0 < 1 := by
  have h := digitalPin_pulse_in_change (fun n => n == 0) (fun _ => 4) 3 0 4 1
    (by decide)
  exact ⟨h.1, h.2.1⟩

/-- C7: `DigitalPinAsync` offers the same operation set as `DigitalPin`
with identical predicate and duration semantics: set / toggle / queries /
assertions / name agree pointwise, and the three stepping operations
compute the same results, the async ones merely reaching the stepping
driver through the component runtime. -/
theorem digitalPinAsync_refines_digitalPin (p : DigitalPinAsync)
    (t : PinTable) (high : Bool) (lvl : Nat → Bool) (dur : Nat → Nat)
    (fuel i : Nat) :
    p.set t high = (DigitalPin.mk p.port p.pin).set t high ∧
    p.set_low t = (DigitalPin.mk p.port p.pin).set_low t ∧
    p.set_high t = (DigitalPin.mk p.port p.pin).set_high t ∧
    p.toggle t = (DigitalPin.mk p.port p.pin).toggle t ∧
    p.is_high t = (DigitalPin.mk p.port p.pin).is_high t ∧
    p.is_low t = (DigitalPin.mk p.port p.pin).is_low t ∧
    p.assert_high t = (DigitalPin.mk p.port p.pin).assert_high t ∧
    p.assert_low t = (DigitalPin.mk p.port p.pin).assert_low t ∧
    p.name = (DigitalPin.mk p.port p.pin).name ∧
    DigitalPinAsync.pulse_in lvl dur fuel i = DigitalPin.pulse_in lvl dur fuel i ∧
    DigitalPinAsync.wait_while_low lvl dur fuel i =
      DigitalPin.wait_while_low lvl dur fuel i ∧
    DigitalPinAsync.wait_while_high lvl dur fuel i =
      DigitalPin.wait_while_high lvl dur fuel i := by
  refine ⟨rfl, rfl, rfl, rfl, rfl, rfl, rfl, rfl, rfl, ?_, ?_, ?_⟩
  · exact asyncWaitLoop_eq_waitLoop _ dur fuel i
  · exact asyncWaitLoop_eq_waitLoop _ dur fuel i
  · exact asyncWaitLoop_eq_waitLoop _ dur fuel i

theorem rx_pop_none {u u' : UartT} (h : u.rx_pop = (none, u')) :
    u.rx = [] ∧ u' = u := by
  unfold UartT.rx_pop at h
  cases hx : u.rx with
  | nil => rw [hx] at h; simp at h; exact ⟨rfl, h.symm⟩
  | cons c rest => rw [hx] at h; simp at h

/-- Draining the receive queue retrieves exactly its contents, front first. -/
theorem recvAll_eq_rx (u0 : UartT) : recvAll u0 = u0.rx := by
  refine recvAll.induct (fun u => recvAll u = u.rx) ?_ ?_ u0
  · intro u u' h
    rw [recvAll]
    split
    · exact ((rx_pop_none (by assumption)).1).symm
    · rename_i b1 u1 heq
      rw [h] at heq
      simp at heq
  · intro u b u' h ih
    rw [recvAll]
    split
    · rename_i u1 heq
      rw [h] at heq
      simp at heq
    · rename_i b1 u1 heq
      rw [h] at heq
      simp at heq
      obtain ⟨rfl, rfl⟩ := heq
      rw [ih, (rx_pop_some h).1]

/-- Helper: `send` appends to the back of `tx` and touches nothing else. -/
theorem foldl_send (bs : List Nat) (u : UartT) :
    bs.foldl Uart.send u = ⟨u.rx, u.tx ++ bs, u.xon⟩ := by
  induction bs generalizing u with
  | nil => simp
  | cons b bs ih => simp [List.foldl, Uart.send, UartT.tx_push, ih]

/-- Flushing a buffer whose firmware echoes every byte: all of `tx` is
injected in order and lands, echoed, at the back of `rx`. -/
theorem flush_echo :
    ∀ (ts rs : List Nat) (k : Nat), (∀ b ∈ ts, b < 256) →
      rs.length + ts.length ≤ MAX_BYTES →
      ∃ tr, flush false echoEng k ⟨rs, ts, true⟩ = some (tr, ⟨rs ++ ts, [], true⟩) ∧
        tr.map Prod.snd = ts := by
  intro ts
  induction ts with
  | nil =>
    intro rs k h1 h2
    refine ⟨[], ?_, rfl⟩
    rw [flush]
    simp [UartT.is_xon, UartT.tx_pop]
  | cons b ts ih =>
    intro rs k h1 h2
    have hb : b < 256 := h1 b (by simp)
    have hlen : rs.length < MAX_BYTES := by
      simp at h2
      omega
    obtain ⟨tr', htr', hmap⟩ :=
      ih (rs ++ [b]) (k + 1) (fun x hx => h1 x (by simp [hx]))
        (by simp at h2 ⊢; omega)
    refine ⟨(⟨rs, ts, true⟩, b) :: tr', ?_, by simp [hmap]⟩
    rw [flush]
    simp only [UartT.is_xon, UartT.tx_pop, if_true, echoEng, List.foldl,
      applyEvent, UartT.rx_push, Nat.mod_eq_of_lt hb, hlen, if_pos]
    rw [htr']
    simp

/-- C5: FIFO round trip: bytes pushed via `send()` sit in `tx` in order;
flushing against firmware that echoes each injected byte deposits them in
`rx` in the same order, and draining `recv()` retrieves them in their
original order. -/
theorem uart_fifo_round_trip (bs : List Nat) (h1 : ∀ b ∈ bs, b < 256)
    (h2 : bs.length ≤ MAX_BYTES) :
    (bs.foldl Uart.send UartT.default0).tx = bs ∧
    ∀ tr u2, flush false echoEng 0 (bs.foldl Uart.send UartT.default0) =
        some (tr, u2) →
      tr.map Prod.snd = bs ∧ recvAll u2 = bs := by
  have hsend : bs.foldl Uart.send UartT.default0 = ⟨[], bs, true⟩ := by
    simpa [UartT.default0] using foldl_send bs UartT.default0
  refine ⟨by rw [hsend], ?_⟩
  intro tr u2 h
  obtain ⟨tr0, htr0, hmap⟩ := flush_echo bs [] 0 h1 (by simpa using h2)
  rw [hsend, htr0] at h
  simp at h
  obtain ⟨rfl, rfl⟩ := h
  exact ⟨hmap, by rw [recvAll_eq_rx]⟩

theorem uart_fifo_round_trip_witness :
    (([72, 105] : List Nat).foldl Uart.send UartT.default0).tx = [72, 105] := by
  exact (uart_fifo_round_trip [72, 105] (by decide) (by decide)).1

/-- C6: `Uart::try_init`: an unsupported channel id (failing capability
query) yields the recoverable `None`; on success the written flags have the
pass-through-to-host-console bit cleared and exactly the three notification
hooks (data-output, XON, XOFF) are registered; a missing IRQ hook point
aborts the session with a panic. -/
theorem uart_try_init_setup (avr : AvrEngine) (id flags : Nat)
    (hbit : avr.stdioBit < 32) :
    (avr.uartGetFlags id = none → Uart.try_init avr id = .unsupported) ∧
    (avr.uartGetFlags id = some flags →
      avr.ioGetIrq id UART_IRQ_OUTPUT = true →
      avr.ioGetIrq id UART_IRQ_OUT_XON = true →
      avr.ioGetIrq id UART_IRQ_OUT_XOFF = true →
        Uart.try_init avr id =
          .ok (flags &&& ((2 ^ 32 - 1) ^^^ 2 ^ avr.stdioBit))
            [UART_IRQ_OUTPUT, UART_IRQ_OUT_XON, UART_IRQ_OUT_XOFF] ∧
        (flags &&& ((2 ^ 32 - 1) ^^^ 2 ^ avr.stdioBit)).testBit avr.stdioBit =
          false) ∧
    (avr.uartGetFlags id = some flags →
      (avr.ioGetIrq id UART_IRQ_OUTPUT = false ∨
        avr.ioGetIrq id UART_IRQ_OUT_XON = false ∨
        avr.ioGetIrq id UART_IRQ_OUT_XOFF = false) →
      Uart.try_init avr id = .aborted) := by
  refine ⟨?_, ?_, ?_⟩
  · intro h
    unfold Uart.try_init
    rw [h]
  · intro h h1 h2 h3
    constructor
    · unfold Uart.try_init
      rw [h]
      simp [h1, h2, h3]
    · rw [Nat.testBit_land, Nat.testBit_xor, Nat.testBit_two_pow_self,
        Nat.testBit_two_pow_sub_one]
      simp [hbit]
  · intro h hmiss
    unfold Uart.try_init
    rw [h]
    rcases hmiss with h1 | h1 | h1 <;> simp [h1]

theorem uart_try_init_setup_witness :
    Uart.try_init ⟨fun _ => some 7, fun _ _ => true, 1⟩ 0 =
      .ok (7 &&& ((2 ^ 32 - 1) ^^^ 2 ^ 1))
        [UART_IRQ_OUTPUT, UART_IRQ_OUT_XON, UART_IRQ_OUT_XOFF] := by
  exact (((uart_try_init_setup ⟨fun _ => some 7, fun _ _ => true, 1⟩ 0 7
    (by decide)).2.1) rfl rfl rfl rfl).1

/-- C8: a strict single-byte read on an empty channel buffer is fatal:
`read_byte` panics when `rx` holds no byte, while `try_read_byte` on the
same state returns `None` immediately with the buffer unchanged; on a
non-empty buffer both return its front byte. -/
theorem uart_read_byte_strict (u : UartT) (b : Nat) (rest : List Nat) :
    (u.rx = [] →
      Uart.read_byte u =
        .error "UART buffer is empty - got no more bytes to read" ∧
      Uart.try_read_byte u = (none, u)) ∧
    (u.rx = b :: rest →
      Uart.read_byte u = .ok (b, { u with rx := rest }) ∧
      (Uart.try_read_byte u).1 = some b) := by
  constructor
  · intro h
    constructor
    · unfold Uart.read_byte UartT.rx_pop
      rw [h]
    · unfold Uart.try_read_byte UartT.rx_pop
      rw [h]
  · intro h
    constructor
    · unfold Uart.read_byte UartT.rx_pop
      rw [h]
    · unfold Uart.try_read_byte UartT.rx_pop
      rw [h]

theorem uart_read_byte_strict_witness :
    Uart.read_byte UartT.default0 =
        .error "UART buffer is empty - got no more bytes to read" ∧
      Uart.read_byte ⟨[5], [], true⟩ = .ok (5, ⟨[], [], true⟩) := by
  refine ⟨((uart_read_byte_strict UartT.default0 0 []).1 rfl).1, ?_⟩
  exact ((uart_read_byte_strict ⟨[5], [], true⟩ 5 []).2 rfl).1

/-- C9: `assert_high` (resp. `assert_low`) succeeds exactly when the pin is
high (resp. low) and otherwise fails with a report identifying the pin by
the `P<port><pin>` string produced by `name()`. -/
theorem digitalPin_assert_name (p : DigitalPin) (t : PinTable) :
    (p.is_high t = true → p.assert_high t = .ok ()) ∧
    (p.is_high t = false →
      p.assert_high t = .error (p.name ++ " is not high")) ∧
    (p.is_low t = true → p.assert_low t = .ok ()) ∧
    (p.is_low t = false →
      p.assert_low t = .error (p.name ++ " is not low")) ∧
    p.name = "P" ++ toString p.port ++ toString p.pin := by
  refine ⟨?_, ?_, ?_, ?_, rfl⟩
  · intro h
    simp [DigitalPin.assert_high, h]
  · intro h
    simp [DigitalPin.assert_high, h]
  · intro h
    simp [DigitalPin.assert_low, h]
  · intro h
    simp [DigitalPin.assert_low, h]

theorem digitalPin_assert_name_witness :
    DigitalPin.assert_high ⟨'C', 6⟩ (fun _ _ => true) = .ok () ∧
      DigitalPin.assert_high ⟨'C', 6⟩ (fun _ _ => false) =
        .error "PC6 is not high" := by
  refine ⟨(digitalPin_assert_name ⟨'C', 6⟩ (fun _ _ => true)).1 rfl, ?_⟩
  exact (digitalPin_assert_name ⟨'C', 6⟩ (fun _ _ => false)).2.1 rfl

end AvrTester
